import Mathlib

/-!
# Verification of the FIT sport editor's segmentation and reconstruction core

Shallow embedding of the segmentation / session-reconstruction engine:
`buildSegmentsFromCuts`, `removeSegmentCut`, `resetSegments`,
`computeSpeedProfile`, `findSpeedTransitions` (main module),
`getRawRecordsInRange`, `computeSegmentStats`, `encodeFitFile` (encoder module).

JS numbers are modelled as exact rationals (`ℚ`); timestamps (`Date.getTime()`
milliseconds) as integers.  Nullable fields are `Option`.  Array index access
is modelled with `getD`/`headD`/`getLastD`; the theorems carry the bounds the
surrounding code guarantees.
-/

/-- Sport (discipline) tags selectable in the editor (`SPORT_TYPES` plus the
`unknown` fallback produced by the decoder). -/
inductive Sport where
  | running
  | cycling
  | transition
  | swimming
  | walking
  | hiking
  | generic
  | unknown
deriving DecidableEq, Repr, Inhabited

/-- One decoded record sample, as produced by `decodeFitFile`:
timestamp in milliseconds (`Date.getTime()`), everything else nullable. -/
structure Record where
  timestamp : ℤ
  speed : Option ℚ
  heartRate : Option ℚ
  distance : Option ℚ
  positionLat : Option ℚ
  positionLong : Option ℚ
  cadence : Option ℚ
  power : Option ℚ
  altitude : Option ℚ
deriving DecidableEq, Repr

instance : Inhabited Record := ⟨⟨0, none, none, none, none, none, none, none, none⟩⟩

/-- One entry of `currentSegments`: `{ startRecordIndex, endRecordIndex, sport }`. -/
structure Segment where
  startRecordIndex : Nat
  endRecordIndex : Nat
  sport : Sport
deriving DecidableEq, Repr

instance : Inhabited Segment := ⟨⟨0, 0, .running⟩⟩

/-- `records.slice(s, e + 1)` — the sample slice a segment `[s, e]` covers. -/
def sliceIncl (l : List α) (s e : Nat) : List α :=
  (l.drop s).take (e + 1 - s)

/-- One iteration of the `for (const r of segRecords)` loop in
`computeAvgSpeed`: `sum += r.speed * 3.6; count++` when the speed is
defined. -/
def avgSpeedStep (acc : ℚ × Nat) (r : Record) : ℚ × Nat :=
  match r.speed with
  | some v => (acc.1 + v * (18 / 5), acc.2 + 1)
  | none => acc

/-- `computeAvgSpeed`: mean of `speed * 3.6` (km/h) over records whose speed
is defined; `0` when none is. -/
def computeAvgSpeed (segRecords : List Record) : ℚ :=
  let acc := segRecords.foldl avgSpeedStep (0, 0)
  if acc.2 > 0 then acc.1 / acc.2 else 0

/-- The discipline-guess thresholds inside `buildSegmentsFromCuts`:
`> 20 → cycling`, `< 3 → transition`, else `running`. -/
def guessSport (avgSpeed : ℚ) : Sport :=
  if avgSpeed > 20 then .cycling
  else if avgSpeed < 3 then .transition
  else .running

/-- The `for (let i = 0; i < cuts.length - 1; i++)` loop of
`buildSegmentsFromCuts`, walking the boundary list `cuts` pairwise.
`i === cuts.length - 2` (last iteration) is exactly `rest = []`. -/
def segsFromBoundaries (records : List Record) (oldSegments : List Segment) :
    List Nat → Nat → List Segment
  | c0 :: c1 :: rest, i =>
    let startIdx := c0
    let endIdx := if rest = [] then c1 else c1 - 1
    let segRecords := sliceIncl records startIdx endIdx
    let avgSpeed := computeAvgSpeed segRecords
    let guessedSport :=
      if oldSegments.length > 0 ∧ i < oldSegments.length then
        (oldSegments.getD i default).sport
      else guessSport avgSpeed
    { startRecordIndex := startIdx, endRecordIndex := endIdx, sport := guessedSport }
      :: segsFromBoundaries records oldSegments (c1 :: rest) (i + 1)
  | _, _ => []

/-- `buildSegmentsFromCuts(cutRecordIndices)` with the module state
(`parsedData.records`, the saved `oldSegments = [...currentSegments]`)
passed explicitly.  `cuts = [0, ...cutRecordIndices, totalRecords - 1]`. -/
def buildSegmentsFromCuts (records : List Record) (oldSegments : List Segment)
    (cutRecordIndices : List Nat) : List Segment :=
  segsFromBoundaries records oldSegments
    (0 :: cutRecordIndices ++ [records.length - 1]) 0

/-- `removeSegmentCut(segIdx)`: silently returns the input when at most one
segment remains; otherwise merges segment `segIdx` into the next one
(extending its start) when a next exists, else into the previous one
(extending its end). -/
def removeSegmentCut (segments : List Segment) (segIdx : Nat) : List Segment :=
  if segments.length ≤ 1 then segments
  else if segIdx < segments.length - 1 then
    let seg := segments.getD segIdx default
    let next := segments.getD (segIdx + 1) default
    (segments.set (segIdx + 1)
      { next with startRecordIndex := seg.startRecordIndex }).eraseIdx segIdx
  else
    let seg := segments.getD segIdx default
    let prev := segments.getD (segIdx - 1) default
    (segments.set (segIdx - 1)
      { prev with endRecordIndex := seg.endRecordIndex }).eraseIdx segIdx

/-- `resetSegments`: one full segment `[0, N-1]`, sport
`parsedData.summary.sport || 'running'` (the `Option` models the falsy
fallback). -/
def resetSegments (records : List Record) (summarySport : Option Sport) :
    List Segment :=
  [{ startRecordIndex := 0,
     endRecordIndex := records.length - 1,
     sport := summarySport.getD .running }]

/-- The boundary guard in the chart click handler (`handleChartClick`):
`if (recordIndex < 5 || recordIndex > records.length - 5) return;` —
a click at such an index is silently ignored, no error is raised.
`true` means the click is allowed to place a cut. -/
def cutClickAllowed (recordIndex n : Nat) : Bool :=
  !(recordIndex < 5 || recordIndex > n - 5)

/-! ## Partition invariant -/

/-- Adjacency of two consecutive segments: no gap, no overlap. -/
def segAdj (a b : Segment) : Prop :=
  a.endRecordIndex + 1 = b.startRecordIndex

instance : DecidableRel segAdj := fun a b =>
  inferInstanceAs (Decidable (a.endRecordIndex + 1 = b.startRecordIndex))

/-- Contiguity of a whole segment list: each consecutive pair is adjacent
(`segments[i].endIndex + 1 == segments[i+1].startIndex`). -/
def segsChain : List Segment → Prop
  | a :: b :: rest => segAdj a b ∧ segsChain (b :: rest)
  | _ => True

instance segsChainDec : (l : List Segment) → Decidable (segsChain l)
  | [] => .isTrue trivial
  | [_] => .isTrue trivial
  | a :: b :: rest =>
    haveI := segsChainDec (b :: rest)
    inferInstanceAs (Decidable (segAdj a b ∧ segsChain (b :: rest)))

/-- A segment list that partitions the sample range `[lo, hi]`:
nonempty, starts at `lo`, ends at `hi`, contiguous, each segment nonempty. -/
def PartFrom (lo hi : Nat) (segs : List Segment) : Prop :=
  segs ≠ [] ∧
  (segs.headD default).startRecordIndex = lo ∧
  (segs.getLastD default).endRecordIndex = hi ∧
  segsChain segs ∧
  ∀ s ∈ segs, s.startRecordIndex ≤ s.endRecordIndex

instance (lo hi : Nat) (segs : List Segment) : Decidable (PartFrom lo hi segs) :=
  inferInstanceAs (Decidable (_ ∧ _ ∧ _ ∧ _ ∧ _))

/-- The SegmentList invariant over an activity of `n` samples:
a partition of `[0, n-1]`. -/
def ValidPartition (segs : List Segment) (n : Nat) : Prop :=
  PartFrom 0 (n - 1) segs

instance (segs : List Segment) (n : Nat) : Decidable (ValidPartition segs n) :=
  inferInstanceAs (Decidable (PartFrom 0 (n - 1) segs))

/-! ## Transition detector -/

/-- The inclusive index range `[s, e]` walked by the `for (let j = s; j <= e; j++)`
window loops. -/
def rangeIncl (s e : Nat) : List Nat :=
  (List.range (e + 1 - s)).map (· + s)

/-- `computeSpeedProfile`: for every index, the mean speed in km/h over a
centered window of radius `max(10, floor(N/100))`, skipping undefined speeds
(`0` when the window has none). -/
def computeSpeedProfile (records : List Record) : List ℚ :=
  let windowSize := max 10 (records.length / 100)
  (List.range records.length).map (fun i =>
    let s := i - windowSize
    let e := min (records.length - 1) (i + windowSize)
    let acc := (rangeIncl s e).foldl
      (fun (acc : ℚ × Nat) j =>
        match (records.getD j default).speed with
        | some v => (acc.1 + v * (18 / 5), acc.2 + 1)
        | none => acc)
      (0, 0)
    if acc.2 > 0 then acc.1 / acc.2 else 0)

/-- `Math.abs(p - q)` on natural indices. -/
def natDist (p q : Nat) : Nat := max p q - min p q

/-- The greedy peak-selection loop of `findSpeedTransitions`: walk the ranked
candidates, stop once `numSplits` peaks are kept, skip candidates within
`minGap` of an already-kept peak. -/
def pickPeaks (minGap numSplits : Nat) :
    List (Nat × ℚ) → List Nat → List Nat
  | [], peaks => peaks
  | c :: rest, peaks =>
    if peaks.length ≥ numSplits then peaks
    else if peaks.any (fun p => natDist p c.1 < minGap) then
      pickPeaks minGap numSplits rest peaks
    else
      pickPeaks minGap numSplits rest (peaks ++ [c.1])

/-- `minGap = Math.floor(profile.length * 0.15)`, modelled exactly as
`3 * N / 20`. -/
def detectorMinGap (n : Nat) : Nat := 3 * n / 20

/-- The `derivative` array of `findSpeedTransitions`: absolute profile
difference over a clamped window of radius `max(5, floor(N/200))`. -/
def detectorDerivative (profile : List ℚ) : List ℚ :=
  let n := profile.length
  let windowSize := max 5 (n / 200)
  (List.range n).map (fun i =>
    let prev := i - windowSize
    let next := min (n - 1) (i + windowSize)
    |profile.getD next 0 - profile.getD prev 0|)

/-- The `smoothDeriv` array of `findSpeedTransitions`: centered moving
average of the derivative with radius `max(5, floor(N/50))`. -/
def detectorSmoothDeriv (profile : List ℚ) : List ℚ :=
  let n := profile.length
  let derivative := detectorDerivative profile
  let sw := max 5 (n / 50)
  (List.range n).map (fun i =>
    let s := i - sw
    let e := min (n - 1) (i + sw)
    (((rangeIncl s e).map (fun j => derivative.getD j 0)).sum) / (e - s + 1 : Nat))

/-- The ranked `candidates` of `findSpeedTransitions`: indices strictly
between `minGap` and `N - minGap` (exclusive), sorted by smoothed-derivative
value descending (stable, as JS `Array.prototype.sort` is). -/
def detectorCandidates (profile : List ℚ) : List (Nat × ℚ) :=
  let n := profile.length
  let minGap := detectorMinGap n
  (((detectorSmoothDeriv profile).enum).filter
    (fun c => minGap < c.1 && c.1 < n - minGap)).mergeSort
    (fun a b => decide (b.2 ≤ a.2))

/-- `findSpeedTransitions(profile, numSplits)`: greedily keep up to
`numSplits` ranked candidates at pairwise distance at least `minGap`, and
return them sorted ascending.  Returns `[]` when `N < 100`. -/
def findSpeedTransitions (profile : List ℚ) (numSplits : Nat) : List Nat :=
  if profile.length < 100 then []
  else
    let peaks := pickPeaks (detectorMinGap profile.length) numSplits
      (detectorCandidates profile) []
    peaks.mergeSort (fun a b => decide (a ≤ b))

/-- `detectTransitions(model, k)` — the detector as invoked by the preset
handler: `findSpeedTransitions(computeSpeedProfile(records), k)`. -/
def detectTransitions (records : List Record) (numSplits : Nat) : List Nat :=
  findSpeedTransitions (computeSpeedProfile records) numSplits

/-! ## Encoder (session reconstruction) -/

/-- FIT profile message numbers used by the encoder
(`Profile.MesgNum.FILE_ID/DEVICE_INFO/RECORD/EVENT/...`). -/
def FILE_ID_NUM : Nat := 0
def RECORD_NUM : Nat := 20
def DEVICE_INFO_NUM : Nat := 23

/-- One raw message captured in decode order for re-encoding:
`{ mesgNum, data }`, the payload kept opaque (type parameter `α`). -/
structure RawMessage (α : Type) where
  mesgNum : Nat
  data : α
deriving DecidableEq, Repr

/-- The decoded activity handed to `encodeFitFile`
(`const { rawOrderedMessages, records } = parsedData`). -/
structure ParsedData (α : Type) where
  records : List Record
  rawOrderedMessages : List (RawMessage α)

/-- JS `Math.round` (half away from zero is half-up for the non-negative
values in play): `⌊q + 1/2⌋`. -/
def jsRound (q : ℚ) : ℤ := ⌊q + 1 / 2⌋

/-- The per-segment statistics computed by `computeSegmentStats` and carried
into the LAP / SESSION messages. -/
structure SegmentStats where
  elapsedTime : ℚ
  totalDistance : ℚ
  avgHeartRate : Option ℚ
  maxHeartRate : Option ℚ
  avgSpeed : Option ℚ
  maxSpeed : Option ℚ
  avgCadence : Option ℚ
  avgPower : Option ℚ
  totalCalories : ℚ
deriving DecidableEq, Repr

/-- The accumulators of the stats loop in `computeSegmentStats`. -/
structure StatAcc where
  hrSum : ℚ
  hrCount : Nat
  maxHr : ℚ
  speedSum : ℚ
  speedCount : Nat
  maxSpeed : ℚ
  cadenceSum : ℚ
  cadenceCount : Nat
  powerSum : ℚ
  powerCount : Nat
deriving Repr

def statAccInit : StatAcc := ⟨0, 0, 0, 0, 0, 0, 0, 0, 0, 0⟩

/-- One iteration of the `for (const r of segRecords)` stats loop. -/
def statStep (acc : StatAcc) (r : Record) : StatAcc :=
  let acc := match r.heartRate with
    | some v => { acc with hrSum := acc.hrSum + v, hrCount := acc.hrCount + 1,
                           maxHr := max acc.maxHr v }
    | none => acc
  let acc := match r.speed with
    | some v => { acc with speedSum := acc.speedSum + v,
                           speedCount := acc.speedCount + 1,
                           maxSpeed := max acc.maxSpeed v }
    | none => acc
  let acc := match r.cadence with
    | some v => { acc with cadenceSum := acc.cadenceSum + v,
                           cadenceCount := acc.cadenceCount + 1 }
    | none => acc
  match r.power with
    | some v => { acc with powerSum := acc.powerSum + v,
                           powerCount := acc.powerCount + 1 }
    | none => acc

/-- `computeSegmentStats(segRecords)`. Undefined endpoint distances coalesce
to `0` (`first.distance ?? 0`), the difference is clamped to `≥ 0`; max
heart rate / speed are reported only when the running max ended up `> 0`. -/
def computeSegmentStats (segRecords : List Record) : SegmentStats :=
  if segRecords.length = 0 then
    ⟨0, 0, none, none, none, none, none, none, 0⟩
  else
    let first := segRecords.headD default
    let last := segRecords.getLastD default
    let elapsedTime : ℚ := ((last.timestamp - first.timestamp : ℤ) : ℚ) / 1000
    let firstDist := first.distance.getD 0
    let lastDist := last.distance.getD 0
    let totalDistance := lastDist - firstDist
    let acc := segRecords.foldl statStep statAccInit
    { elapsedTime := elapsedTime
      totalDistance := if totalDistance > 0 then totalDistance else 0
      avgHeartRate :=
        if acc.hrCount > 0 then some ((jsRound (acc.hrSum / acc.hrCount) : ℤ) : ℚ)
        else none
      maxHeartRate := if acc.maxHr > 0 then some acc.maxHr else none
      avgSpeed := if acc.speedCount > 0 then some (acc.speedSum / acc.speedCount) else none
      maxSpeed := if acc.maxSpeed > 0 then some acc.maxSpeed else none
      avgCadence :=
        if acc.cadenceCount > 0 then
          some ((jsRound (acc.cadenceSum / acc.cadenceCount) : ℤ) : ℚ)
        else none
      avgPower :=
        if acc.powerCount > 0 then some ((jsRound (acc.powerSum / acc.powerCount) : ℤ) : ℚ)
        else none
      totalCalories := 0 }

/-- `getRawRecordsInRange`'s loop, with the running count `recordIdx` of
record-typed messages seen so far and the early `break` once
`recordIdx > endIdx`. -/
def grrGo (startIdx endIdx : Nat) :
    List (RawMessage α) → Nat → List (RawMessage α)
  | [], _ => []
  | m :: rest, recordIdx =>
    if m.mesgNum = RECORD_NUM then
      let kept := if startIdx ≤ recordIdx ∧ recordIdx ≤ endIdx then [m] else []
      if recordIdx + 1 > endIdx then kept
      else kept ++ grrGo startIdx endIdx rest (recordIdx + 1)
    else grrGo startIdx endIdx rest recordIdx

/-- `getRawRecordsInRange(orderedMessages, startIdx, endIdx)`: the record-typed
messages whose position within the record subsequence lies in
`[startIdx, endIdx]`, in original order. -/
def getRawRecordsInRange (orderedMessages : List (RawMessage α))
    (startIdx endIdx : Nat) : List (RawMessage α) :=
  grrGo startIdx endIdx orderedMessages 0

/-- FIT epoch offset (`Utils.FIT_EPOCH_MS`). -/
def FIT_EPOCH_MS : ℤ := 631065600000

/-- `getTimestamp`: convert a `Date` (ms) to a FIT epoch second count,
`Math.round((ms - FIT_EPOCH_MS) / 1000)`. -/
def getTimestamp (ms : ℤ) : ℤ := jsRound (((ms - FIT_EPOCH_MS : ℤ) : ℚ) / 1000)

/-- Timer event type written around each segment. -/
inductive EventType where
  | start
  | stopAll
deriving DecidableEq, Repr

/-- One message handed to `encoder.onMesg`, as a closed variant set.
`fileId` carries the copied original FILE_ID payload when one was found
(`none` = the synthesized fallback); record messages carry the raw payload
passed through. -/
inductive OutMesg (α : Type) where
  | fileId (orig : Option α)
  | deviceInfo (data : α)
  | event (timestamp : ℤ) (eventType : EventType)
  | record (data : α)
  | lap (messageIndex : Nat) (timestamp startTime : ℤ) (stats : SegmentStats)
      (sport : Sport)
  | session (messageIndex : Nat) (timestamp startTime : ℤ) (stats : SegmentStats)
      (sport : Sport) (firstLapIndex : Nat)
  | activity (timestamp : ℤ) (numSessions : Nat) (totalTimerTime : ℚ)
      (localTimestamp : ℤ)
deriving DecidableEq, Repr

/-- The per-segment encoding loop of `encodeFitFile` (step 4): `segIdx` is the
loop index, `totalLapIndex` the lap counter (not advanced when a segment's
record slice is empty, since that iteration is skipped by `continue`). -/
def encodeSegments (records : List Record) (msgs : List (RawMessage α)) :
    List Segment → Nat → Nat → List (OutMesg α)
  | [], _, _ => []
  | segment :: rest, segIdx, totalLapIndex =>
    let segRecords := sliceIncl records segment.startRecordIndex segment.endRecordIndex
    if segRecords.length = 0 then
      encodeSegments records msgs rest (segIdx + 1) totalLapIndex
    else
      let segStartTs := getTimestamp (segRecords.headD default).timestamp
      let segEndTs := getTimestamp (segRecords.getLastD default).timestamp
      let rawRecordsInSegment :=
        getRawRecordsInRange msgs segment.startRecordIndex segment.endRecordIndex
      let stats := computeSegmentStats segRecords
      (OutMesg.event segStartTs .start
        :: rawRecordsInSegment.map (fun m => OutMesg.record m.data))
        ++ [OutMesg.event segEndTs .stopAll,
            OutMesg.lap totalLapIndex segEndTs segStartTs stats segment.sport,
            OutMesg.session segIdx segEndTs segStartTs stats segment.sport segIdx]
        ++ encodeSegments records msgs rest (segIdx + 1) (totalLapIndex + 1)

/-- `encodeFitFile(parsedData, segments)` as the ordered `onMesg` stream:
FILE_ID (copied with `type: 'activity'` or synthesized), every DEVICE_INFO
verbatim, the per-segment blocks, and the trailing ACTIVITY message.
`tzOffsetMin` is the ambient `Date.getTimezoneOffset()` of the last record's
timestamp, made an explicit input. -/
def encodeFitFile (parsed : ParsedData α) (segments : List Segment)
    (tzOffsetMin : ℤ) : List (OutMesg α) :=
  let records := parsed.records
  let msgs := parsed.rawOrderedMessages
  let fileIdMsg := msgs.find? (fun m => m.mesgNum = FILE_ID_NUM)
  let deviceInfoMsgs := msgs.filter (fun m => m.mesgNum = DEVICE_INFO_NUM)
  let lastRecord := records.getLastD default
  let firstRecord := records.headD default
  let totalElapsedTime : ℚ :=
    ((lastRecord.timestamp - firstRecord.timestamp : ℤ) : ℚ) / 1000
  let activityTimestamp := getTimestamp lastRecord.timestamp
  let localOffset := tzOffsetMin * (-60)
  (OutMesg.fileId (fileIdMsg.map (·.data))
      :: deviceInfoMsgs.map (fun m => OutMesg.deviceInfo m.data))
    ++ encodeSegments records msgs segments 0 0
    ++ [OutMesg.activity activityTimestamp segments.length totalElapsedTime
          (activityTimestamp + localOffset)]

/-- The payloads of the record-typed messages of an output stream, in order —
what "the record-typed RawMessages emitted across all segments" denotes. -/
def outRecordData : List (OutMesg α) → List α
  | [] => []
  | OutMesg.record d :: rest => d :: outRecordData rest
  | _ :: rest => outRecordData rest

/-- The `totalDistance` values carried by the LAP messages of an output
stream, in order. -/
def lapTotalDistances : List (OutMesg α) → List ℚ
  | [] => []
  | OutMesg.lap _ _ _ stats _ :: rest => stats.totalDistance :: lapTotalDistances rest
  | _ :: rest => lapTotalDistances rest

/-- The `totalDistance` values carried by the SESSION messages of an output
stream, in order. -/
def sessionTotalDistances : List (OutMesg α) → List ℚ
  | [] => []
  | OutMesg.session _ _ _ stats _ _ :: rest =>
      stats.totalDistance :: sessionTotalDistances rest
  | _ :: rest => sessionTotalDistances rest

/-! ## Derived predicates and concrete inputs used by the claims -/

/-- N = 1000 uniform 1 Hz samples with constant speed 10 m/s. -/
def scenarioARecords : List Record :=
  (List.range 1000).map (fun (i : Nat) =>
    { timestamp := (i : Int) * 1000, speed := some 10, heartRate := none,
      distance := none, positionLat := none, positionLong := none,
      cadence := none, power := none, altitude := none })

/-- Two 1 Hz samples — the smallest activity on which segment-wise elapsed
times undercount the total. -/
def twoSampleRecords : List Record :=
  [⟨0, none, none, none, none, none, none, none, none⟩,
   ⟨1000, none, none, none, none, none, none, none, none⟩]

/-- The full two-segment SegmentList `[0,0],[1,1]` over `twoSampleRecords`. -/
def twoSingletonSegs : List Segment := [⟨0, 0, .running⟩, ⟨1, 1, .running⟩]

/-- Six samples with no speed values, for exercising the planner ops. -/
def sixRecords : List Record :=
  [⟨0, none, none, none, none, none, none, none, none⟩,
   ⟨1000, none, none, none, none, none, none, none, none⟩,
   ⟨2000, none, none, none, none, none, none, none, none⟩,
   ⟨3000, none, none, none, none, none, none, none, none⟩,
   ⟨4000, none, none, none, none, none, none, none, none⟩,
   ⟨5000, none, none, none, none, none, none, none, none⟩]

/-- Three samples matching the three record messages of `coverageMsgs`. -/
def threeRecords : List Record :=
  [⟨0, none, none, none, none, none, none, none, none⟩,
   ⟨1000, none, none, none, none, none, none, none, none⟩,
   ⟨2000, none, none, none, none, none, none, none, none⟩]

/-- A small raw message stream: FILE_ID, three records (payloads 1, 2, 3)
interleaved with a DEVICE_INFO and an EVENT message. -/
def coverageMsgs : List (RawMessage Nat) :=
  [⟨0, 100⟩, ⟨20, 1⟩, ⟨23, 7⟩, ⟨20, 2⟩, ⟨21, 9⟩, ⟨20, 3⟩]

/-- Uniform 1 Hz samples whose speed steps from 0 to 21 m/s at index 94 —
this pushes the strongest smoothed-derivative candidate to the upper edge of
the allowed zone. -/
def stepRecords : List Record :=
  (List.range 100).map (fun (i : Nat) =>
    { timestamp := (i : Int) * 1000,
      speed := some (if i < 94 then 0 else 21),
      heartRate := none, distance := none, positionLat := none,
      positionLong := none, cadence := none, power := none, altitude := none })

/-- A transition-like sample: defined zero speed, live (nonzero) heart
rate. -/
def zeroSpeedLiveHrRecord : Record :=
  ⟨0, some 0, some 120, none, none, none, none, none, none⟩

/-- A heart-rate-dropout sample: defined zero heart rate, real speed. -/
def zeroHrRealSpeedRecord : Record :=
  ⟨0, some 5, some 0, none, none, none, none, none, none⟩

/-- Two samples whose first endpoint distance is undefined and whose last is
100 m. -/
def undefFirstDistRecords : List Record :=
  [⟨0, none, none, none, none, none, none, none, none⟩,
   ⟨1000, none, none, some 100, none, none, none, none, none⟩]

/-- The per-segment elapsed times (`computeSegmentStats(...).elapsedTime` over
each segment's sample slice, in seconds), summed over a segment list. -/
def segElapsedSum (records : List Record) (segs : List Segment) : ℚ :=
  (segs.map (fun sg => (computeSegmentStats
    (sliceIncl records sg.startRecordIndex sg.endRecordIndex)).elapsedTime)).sum

/-- The activity total elapsed time written by `encodeFitFile`
(`records[0]` to `records[length-1]`, in seconds). -/
def totalElapsedSec (records : List Record) : ℚ :=
  (((records.getLastD default).timestamp -
    (records.headD default).timestamp : ℤ) : ℚ) / 1000

/-- The timestamp gaps (in seconds) between each segment's last sample and
the next segment's first sample. -/
def interSegmentGaps (records : List Record) : List Segment → ℚ
  | a :: b :: rest =>
      (((records.getD b.startRecordIndex default).timestamp -
        (records.getD a.endRecordIndex default).timestamp : ℤ) : ℚ) / 1000 +
      interSegmentGaps records (b :: rest)
  | _ => 0

/-- Strict ascent of a list of cut indices ("ascending set"). -/
def natChainLt : List Nat → Prop
  | a :: b :: rest => a < b ∧ natChainLt (b :: rest)
  | _ => True

instance natChainLtDec : (l : List Nat) → Decidable (natChainLt l)
  | [] => .isTrue trivial
  | [_] => .isTrue trivial
  | a :: b :: rest =>
    haveI := natChainLtDec (b :: rest)
    inferInstanceAs (Decidable (a < b ∧ natChainLt (b :: rest)))

/-- The boundary pairs of a segment list — what the claim's "segment
boundaries" denotes (disciplines forgotten). -/
def boundaries (segs : List Segment) : List (Nat × Nat) :=
  segs.map (fun s => (s.startRecordIndex, s.endRecordIndex))

/-- The boundary pairs the `buildSegmentsFromCuts` loop produces from a
boundary list. -/
def boundPairs : List Nat → List (Nat × Nat)
  | c0 :: c1 :: rest => (c0, if rest = [] then c1 else c1 - 1) :: boundPairs (c1 :: rest)
  | _ => []

/-- The record-typed subsequence of the raw message stream (1:1, in order,
with the sample sequence). -/
def recordMesgs (msgs : List (RawMessage α)) : List (RawMessage α) :=
  msgs.filter (fun m => m.mesgNum = RECORD_NUM)

/-! ## Helper lemmas -/

theorem sliceIncl_subset (l : List α) (s e : Nat) : sliceIncl l s e ⊆ l :=
  fun _ h => List.drop_subset s l (List.take_subset _ _ h)

theorem length_sliceIncl (l : List α) (s e : Nat) :
    (sliceIncl l s e).length = min (e + 1 - s) (l.length - s) := by
  simp [sliceIncl]

theorem sliceIncl_ne_nil (l : List α) (s e : Nat) (hse : s ≤ e)
    (hs : s < l.length) : sliceIncl l s e ≠ [] := by
  intro hnil
  have h := length_sliceIncl l s e
  rw [hnil] at h
  simp only [List.length_nil] at h
  omega

theorem foldl_avgSpeedStep (v : ℚ) :
    ∀ (l : List Record), (∀ r ∈ l, r.speed = some v) → ∀ (s : ℚ) (c : Nat),
      l.foldl avgSpeedStep (s, c) = (s + l.length * (v * (18 / 5)), c + l.length) := by
  intro l
  induction l with
  | nil => intro _ s c; simp
  | cons r rest ih =>
    intro h s c
    have hr : r.speed = some v := h r (by simp)
    simp only [List.foldl_cons, avgSpeedStep, hr]
    rw [ih (fun x hx => h x (by simp [hx])) (s + v * (18 / 5)) (c + 1)]
    simp only [List.length_cons, Prod.mk.injEq]
    constructor
    · push_cast
      ring
    · omega

theorem computeAvgSpeed_const (v : ℚ) (l : List Record)
    (h : ∀ r ∈ l, r.speed = some v) (hne : l ≠ []) :
    computeAvgSpeed l = v * (18 / 5) := by
  have hlen : l.length ≠ 0 := fun h0 => hne (List.length_eq_zero.mp h0)
  unfold computeAvgSpeed
  rw [foldl_avgSpeedStep v l h 0 0]
  have hpos : 0 < l.length := Nat.pos_of_ne_zero hlen
  have hcast : (l.length : ℚ) ≠ 0 := Nat.cast_ne_zero.mpr hlen
  simp only [zero_add]
  rw [if_pos hpos]
  exact mul_div_cancel_left₀ _ hcast

/-! ## Scenario A input: 1000 uniform 1 Hz samples at constant 10 m/s -/

theorem scenarioARecords_length : scenarioARecords.length = 1000 := by
  simp only [scenarioARecords, List.length_map, List.length_range]

theorem scenarioA_speed : ∀ r ∈ scenarioARecords, r.speed = some 10 := by
  intro r hr
  simp only [scenarioARecords, List.mem_map] at hr
  obtain ⟨i, _, rfl⟩ := hr
  rfl

theorem scenarioA_avg_slice (s e : Nat) (hse : s ≤ e) (hs : s < 1000) :
    computeAvgSpeed (sliceIncl scenarioARecords s e) = 36 := by
  have hsub : ∀ r ∈ sliceIncl scenarioARecords s e, r.speed = some 10 :=
    fun r hr => scenarioA_speed r (sliceIncl_subset _ _ _ hr)
  have hne : sliceIncl scenarioARecords s e ≠ [] :=
    sliceIncl_ne_nil _ s e hse (by rw [scenarioARecords_length]; exact hs)
  rw [computeAvgSpeed_const 10 _ hsub hne]
  norm_num

theorem scenarioA_cut500 :
    buildSegmentsFromCuts scenarioARecords [] [500] =
      [⟨0, 499, .cycling⟩, ⟨500, 999, .cycling⟩] := by
  have h1 := scenarioA_avg_slice 0 499 (by omega) (by omega)
  have h2 := scenarioA_avg_slice 500 999 (by omega) (by omega)
  unfold buildSegmentsFromCuts
  rw [scenarioARecords_length]
  norm_num [segsFromBoundaries, h1, h2, guessSport]

theorem scenarioA_cut2 :
    buildSegmentsFromCuts scenarioARecords [] [2] =
      [⟨0, 1, .cycling⟩, ⟨2, 999, .cycling⟩] := by
  have h1 := scenarioA_avg_slice 0 1 (by omega) (by omega)
  have h2 := scenarioA_avg_slice 2 999 (by omega) (by omega)
  unfold buildSegmentsFromCuts
  rw [scenarioARecords_length]
  norm_num [segsFromBoundaries, h1, h2, guessSport]

/-! ## Indexing lemmas for segment slices -/

theorem getD_sliceIncl (l : List α) [Inhabited α] (s e i : Nat)
    (h : i < e + 1 - s) :
    (sliceIncl l s e).getD i default = l.getD (s + i) default := by
  unfold sliceIncl
  rw [List.getD_eq_getElem?_getD, List.getD_eq_getElem?_getD,
    List.getElem?_take, if_pos h, List.getElem?_drop]

theorem headD_sliceIncl (l : List α) [Inhabited α] (s e : Nat) (hse : s ≤ e) :
    (sliceIncl l s e).headD default = l.getD s default := by
  have h0 : (sliceIncl l s e).headD default = (sliceIncl l s e).getD 0 default := by
    cases sliceIncl l s e <;> rfl
  rw [h0, getD_sliceIncl l s e 0 (by omega), Nat.add_zero]

theorem getLastD_eq_getD (l : List α) [Inhabited α] :
    l.getLastD default = l.getD (l.length - 1) default := by
  rw [List.getLastD_eq_getLast?, List.getLast?_eq_getElem?,
    List.getD_eq_getElem?_getD]

theorem getLastD_sliceIncl (l : List α) [Inhabited α] (s e : Nat) (hse : s ≤ e)
    (he : e < l.length) :
    (sliceIncl l s e).getLastD default = l.getD e default := by
  have hlen : (sliceIncl l s e).length = e + 1 - s := by
    rw [length_sliceIncl]; omega
  rw [getLastD_eq_getD, hlen, getD_sliceIncl l s e (e + 1 - s - 1) (by omega)]
  congr 1
  omega

/-! ## Elapsed-time bookkeeping (claim C4) -/

theorem elapsedTime_slice (records : List Record) (s e : Nat) (hse : s ≤ e)
    (he : e < records.length) :
    (computeSegmentStats (sliceIncl records s e)).elapsedTime =
      (((records.getD e default).timestamp -
        (records.getD s default).timestamp : ℤ) : ℚ) / 1000 := by
  have hlen : (sliceIncl records s e).length = e + 1 - s := by
    rw [length_sliceIncl]; omega
  have hne : ¬((sliceIncl records s e).length = 0) := by omega
  unfold computeSegmentStats
  rw [if_neg hne]
  simp only
  rw [headD_sliceIncl records s e hse, getLastD_sliceIncl records s e hse he]

theorem partFrom_bounds :
    ∀ (segs : List Segment) (lo hi : Nat), PartFrom lo hi segs →
      ∀ sg ∈ segs, sg.startRecordIndex ≤ sg.endRecordIndex ∧
        sg.endRecordIndex ≤ hi := by
  intro segs
  induction segs with
  | nil => intro lo hi h; exact absurd rfl h.1
  | cons a t ih =>
    intro lo hi h sg hsg
    obtain ⟨-, hhead, hlast, hchain, hverif⟩ := h
    cases t with
    | nil =>
      rcases List.mem_singleton.mp hsg with rfl
      simp only [List.getLastD_cons, List.getLastD_nil] at hlast
      exact ⟨hverif sg (by simp), le_of_eq hlast⟩
    | cons b t2 =>
      have hchain2 : segAdj a b ∧ segsChain (b :: t2) := hchain
      have hadj : segAdj a b := hchain2.1
      have hpart2 : PartFrom b.startRecordIndex hi (b :: t2) := by
        refine ⟨by simp, by simp, ?_, hchain2.2,
          fun x hx => hverif x (by simp [hx])⟩
        rw [List.getLastD_cons, List.getLastD_cons] at hlast
        rw [List.getLastD_cons]
        exact hlast
      have hbnds := ih b.startRecordIndex hi hpart2
      rcases List.mem_cons.mp hsg with rfl | hmem
      · have h1 := hverif sg (by simp)
        have h2 := (hbnds b (by simp)).1
        have h3 := (hbnds b (by simp)).2
        unfold segAdj at hadj
        exact ⟨h1, by omega⟩
      · exact hbnds sg hmem

theorem elapsed_telescope (records : List Record) :
    ∀ (segs : List Segment) (lo hi : Nat), PartFrom lo hi segs →
      hi < records.length →
      segElapsedSum records segs =
        ((((records.getD hi default).timestamp -
          (records.getD lo default).timestamp : ℤ) : ℚ) / 1000) -
        interSegmentGaps records segs := by
  intro segs
  induction segs with
  | nil => intro lo hi h; exact absurd rfl h.1
  | cons a t ih =>
    intro lo hi h hhi
    obtain ⟨-, hhead, hlast, hchain, hverif⟩ := h
    cases t with
    | nil =>
      simp only [List.getLastD_cons, List.getLastD_nil] at hlast
      simp only [List.headD_cons] at hhead
      subst hhead hlast
      have h1 := hverif a (by simp)
      unfold segElapsedSum interSegmentGaps
      rw [List.map_cons, List.map_nil, List.sum_cons, List.sum_nil,
        elapsedTime_slice records _ _ h1 hhi]
      ring
    | cons b t2 =>
      have hchain2 : segAdj a b ∧ segsChain (b :: t2) := hchain
      have hadj : segAdj a b := hchain2.1
      have hpart2 : PartFrom b.startRecordIndex hi (b :: t2) := by
        refine ⟨by simp, by simp, ?_, hchain2.2,
          fun x hx => hverif x (by simp [hx])⟩
        rw [List.getLastD_cons, List.getLastD_cons] at hlast
        rw [List.getLastD_cons]
        exact hlast
      have hbnds := partFrom_bounds (b :: t2) b.startRecordIndex hi hpart2
      have hbend : b.endRecordIndex ≤ hi := (hbnds b (by simp)).2
      have hIH := ih b.startRecordIndex hi hpart2 hhi
      simp only [List.headD_cons] at hhead
      subst hhead
      have h1 := hverif a (by simp)
      have haend : a.endRecordIndex < records.length := by
        unfold segAdj at hadj
        have := (hbnds b (by simp)).1
        omega
      unfold segElapsedSum at hIH ⊢
      rw [List.map_cons, List.sum_cons,
        elapsedTime_slice records _ _ h1 haend, hIH]
      show _ = _ - interSegmentGaps records (a :: b :: t2)
      rw [interSegmentGaps]
      push_cast
      ring

/-- C4, counterexample: over two 1 Hz samples split into the full SegmentList
`[0,0],[1,1]`, the per-segment elapsed times sum to 0 s while the activity
total elapsed time is 1 s — the claimed equality fails. -/
theorem elapsed_sum_undercounts :
    ValidPartition twoSingletonSegs twoSampleRecords.length ∧
    2 ≤ twoSampleRecords.length ∧
    segElapsedSum twoSampleRecords twoSingletonSegs = 0 ∧
    totalElapsedSec twoSampleRecords = 1 ∧
    (0 : ℚ) ≠ 1 := by
  refine ⟨by decide, by decide, ?_, ?_, by norm_num⟩ <;> with_unfolding_all decide

/-- C4, amended: for every full SegmentList over an activity of N ≥ 2
samples, the sum of the per-segment elapsed times equals the activity total
elapsed time minus the sum of the timestamp gaps between consecutive
segments (next segment's first sample minus previous segment's last sample);
the claimed exact equality holds only when every inter-segment gap is zero. -/
theorem elapsed_sum_eq_total_minus_gaps (records : List Record)
    (segs : List Segment) (hpart : ValidPartition segs records.length)
    (hN : 2 ≤ records.length) :
    segElapsedSum records segs =
      totalElapsedSec records - interSegmentGaps records segs := by
  have h := elapsed_telescope records segs 0 (records.length - 1) hpart
    (by omega)
  rw [h]
  unfold totalElapsedSec
  rw [getLastD_eq_getD]
  have h0 : records.headD default = records.getD 0 default := by
    cases records <;> rfl
  rw [h0]

/-- C4 witness: the amended equality on the concrete two-sample split
(0 s = 1 s − 1 s of gap). -/
theorem elapsed_sum_eq_total_minus_gaps_witness :
    ValidPartition twoSingletonSegs twoSampleRecords.length ∧
    2 ≤ twoSampleRecords.length ∧
    segElapsedSum twoSampleRecords twoSingletonSegs =
      totalElapsedSec twoSampleRecords -
        interSegmentGaps twoSampleRecords twoSingletonSegs :=
  ⟨by decide, by decide,
   elapsed_sum_eq_total_minus_gaps twoSampleRecords twoSingletonSegs
     (by decide) (by decide)⟩

/-! ## Stats-loop lemmas -/

theorem statStep_hr_none (acc : StatAcc) (r : Record) (h : r.heartRate = none) :
    (statStep acc r).hrSum = acc.hrSum ∧ (statStep acc r).hrCount = acc.hrCount ∧
    (statStep acc r).maxHr = acc.maxHr := by
  cases hs : r.speed <;> cases hc : r.cadence <;> cases hp : r.power <;>
    simp [statStep, h, hs, hc, hp]

theorem statStep_hr_some (acc : StatAcc) (r : Record) (v : ℚ)
    (h : r.heartRate = some v) :
    (statStep acc r).hrSum = acc.hrSum + v ∧
    (statStep acc r).hrCount = acc.hrCount + 1 ∧
    (statStep acc r).maxHr = max acc.maxHr v := by
  cases hs : r.speed <;> cases hc : r.cadence <;> cases hp : r.power <;>
    simp [statStep, h, hs, hc, hp]

theorem statStep_speed_none (acc : StatAcc) (r : Record) (h : r.speed = none) :
    (statStep acc r).speedSum = acc.speedSum ∧
    (statStep acc r).speedCount = acc.speedCount ∧
    (statStep acc r).maxSpeed = acc.maxSpeed := by
  cases hh : r.heartRate <;> cases hc : r.cadence <;> cases hp : r.power <;>
    simp [statStep, h, hh, hc, hp]

theorem statStep_speed_some (acc : StatAcc) (r : Record) (v : ℚ)
    (h : r.speed = some v) :
    (statStep acc r).speedSum = acc.speedSum + v ∧
    (statStep acc r).speedCount = acc.speedCount + 1 ∧
    (statStep acc r).maxSpeed = max acc.maxSpeed v := by
  cases hh : r.heartRate <;> cases hc : r.cadence <;> cases hp : r.power <;>
    simp [statStep, h, hh, hc, hp]

theorem foldl_statStep_hr_zero :
    ∀ (l : List Record) (acc : StatAcc),
      (∀ r ∈ l, r.heartRate = none ∨ r.heartRate = some 0) →
      acc.hrSum = 0 → acc.maxHr = 0 →
      (l.foldl statStep acc).hrSum = 0 ∧ (l.foldl statStep acc).maxHr = 0 ∧
      acc.hrCount ≤ (l.foldl statStep acc).hrCount ∧
      ((∃ r ∈ l, r.heartRate = some 0) → 0 < (l.foldl statStep acc).hrCount) := by
  intro l
  induction l with
  | nil => intro acc _ hs hm; simp [hs, hm]
  | cons r rest ih =>
    intro acc hall hs hm
    rw [List.foldl_cons]
    rcases hall r (by simp) with hnone | hzero
    · obtain ⟨e1, e2, e3⟩ := statStep_hr_none acc r hnone
      obtain ⟨g1, g2, g3, g4⟩ := ih (statStep acc r)
        (fun x hx => hall x (by simp [hx])) (by rw [e1, hs]) (by rw [e3, hm])
      refine ⟨g1, g2, by omega, ?_⟩
      rintro ⟨r0, hr0, hdef⟩
      rcases List.mem_cons.mp hr0 with rfl | hmem
      · rw [hnone] at hdef; exact absurd hdef (by simp)
      · exact g4 ⟨r0, hmem, hdef⟩
    · obtain ⟨e1, e2, e3⟩ := statStep_hr_some acc r 0 hzero
      obtain ⟨g1, g2, g3, _⟩ := ih (statStep acc r)
        (fun x hx => hall x (by simp [hx]))
        (by rw [e1, hs, add_zero]) (by rw [e3, hm, max_self])
      rw [e2] at g3
      exact ⟨g1, g2, by omega, fun _ => by omega⟩

theorem foldl_statStep_speed_zero :
    ∀ (l : List Record) (acc : StatAcc),
      (∀ r ∈ l, r.speed = none ∨ r.speed = some 0) →
      acc.speedSum = 0 → acc.maxSpeed = 0 →
      (l.foldl statStep acc).speedSum = 0 ∧ (l.foldl statStep acc).maxSpeed = 0 ∧
      acc.speedCount ≤ (l.foldl statStep acc).speedCount ∧
      ((∃ r ∈ l, r.speed = some 0) → 0 < (l.foldl statStep acc).speedCount) := by
  intro l
  induction l with
  | nil => intro acc _ hs hm; simp [hs, hm]
  | cons r rest ih =>
    intro acc hall hs hm
    rw [List.foldl_cons]
    rcases hall r (by simp) with hnone | hzero
    · obtain ⟨e1, e2, e3⟩ := statStep_speed_none acc r hnone
      obtain ⟨g1, g2, g3, g4⟩ := ih (statStep acc r)
        (fun x hx => hall x (by simp [hx])) (by rw [e1, hs]) (by rw [e3, hm])
      refine ⟨g1, g2, by omega, ?_⟩
      rintro ⟨r0, hr0, hdef⟩
      rcases List.mem_cons.mp hr0 with rfl | hmem
      · rw [hnone] at hdef; exact absurd hdef (by simp)
      · exact g4 ⟨r0, hmem, hdef⟩
    · obtain ⟨e1, e2, e3⟩ := statStep_speed_some acc r 0 hzero
      obtain ⟨g1, g2, g3, _⟩ := ih (statStep acc r)
        (fun x hx => hall x (by simp [hx]))
        (by rw [e1, hs, add_zero]) (by rw [e3, hm, max_self])
      rw [e2] at g3
      exact ⟨g1, g2, by omega, fun _ => by omega⟩

theorem jsRound_zero : jsRound 0 = 0 := by
  unfold jsRound
  norm_num

/-! ## Claim C10 — all-zero / undefined heart rate and speed -/

/-- C10: over a nonempty slice, the heart-rate and speed statistics behave
independently ("respectively"): whenever every heart rate is undefined or 0
with at least one defined 0, `computeSegmentStats` reports `maxHeartRate` as
null (the running max stays 0 and the `> 0` guard fails) while
`avgHeartRate` is a rounded 0 — and likewise for speed, regardless of what
the other field holds. -/
theorem zero_only_stats_max_null_avg_zero (l : List Record) (hne : l ≠ []) :
    ((∀ r ∈ l, r.heartRate = none ∨ r.heartRate = some 0) →
      (∃ r ∈ l, r.heartRate = some 0) →
      (computeSegmentStats l).maxHeartRate = none ∧
        (computeSegmentStats l).avgHeartRate = some 0) ∧
    ((∀ r ∈ l, r.speed = none ∨ r.speed = some 0) →
      (∃ r ∈ l, r.speed = some 0) →
      (computeSegmentStats l).maxSpeed = none ∧
        (computeSegmentStats l).avgSpeed = some 0) := by
  have hlen : ¬(l.length = 0) := fun h0 => hne (List.length_eq_zero.mp h0)
  constructor
  · intro hhr hhr0
    obtain ⟨hsum, hmax, _, hcnt⟩ :=
      foldl_statStep_hr_zero l statAccInit hhr rfl rfl
    have hcnt2 := hcnt hhr0
    unfold computeSegmentStats
    rw [if_neg hlen]
    constructor
    · simp only [hmax]
      norm_num
    · simp only [hsum]
      rw [if_pos hcnt2, zero_div, jsRound_zero]
      norm_num
  · intro hsp hsp0
    obtain ⟨ssum, smax, _, scnt⟩ :=
      foldl_statStep_speed_zero l statAccInit hsp rfl rfl
    have scnt2 := scnt hsp0
    unfold computeSegmentStats
    rw [if_neg hlen]
    constructor
    · simp only [smax]
      norm_num
    · simp only [ssum]
      rw [if_pos scnt2, zero_div]

/-- C10 witness: the speed half on a transition-like slice with zero speeds
but a live 120 bpm heart rate, and the heart-rate half on a dropout slice
with zero heart rates but real 5 m/s speed — each field's behavior
independent of the other. -/
theorem zero_only_stats_max_null_avg_zero_witness :
    (([zeroSpeedLiveHrRecord] : List Record) ≠ [] ∧
     (∀ r ∈ [zeroSpeedLiveHrRecord], r.speed = none ∨ r.speed = some 0) ∧
     (∃ r ∈ [zeroSpeedLiveHrRecord], r.speed = some 0) ∧
     ((computeSegmentStats [zeroSpeedLiveHrRecord]).maxSpeed = none ∧
      (computeSegmentStats [zeroSpeedLiveHrRecord]).avgSpeed = some 0)) ∧
    (([zeroHrRealSpeedRecord] : List Record) ≠ [] ∧
     (∀ r ∈ [zeroHrRealSpeedRecord], r.heartRate = none ∨ r.heartRate = some 0) ∧
     (∃ r ∈ [zeroHrRealSpeedRecord], r.heartRate = some 0) ∧
     ((computeSegmentStats [zeroHrRealSpeedRecord]).maxHeartRate = none ∧
      (computeSegmentStats [zeroHrRealSpeedRecord]).avgHeartRate = some 0)) :=
  ⟨⟨by simp, by with_unfolding_all decide, by with_unfolding_all decide,
    (zero_only_stats_max_null_avg_zero [zeroSpeedLiveHrRecord] (by simp)).2
      (by with_unfolding_all decide) (by with_unfolding_all decide)⟩,
   ⟨by simp, by with_unfolding_all decide, by with_unfolding_all decide,
    (zero_only_stats_max_null_avg_zero [zeroHrRealSpeedRecord] (by simp)).1
      (by with_unfolding_all decide) (by with_unfolding_all decide)⟩⟩

/-! ## Partition invariant of the planner operations (claim C2) -/

theorem getLastD_cons_cons (a x : α) (xs : List α) (d : α) :
    (a :: x :: xs).getLastD d = (x :: xs).getLastD d := by
  simp only [List.getLastD_cons]

theorem getLastD_append_singleton (l : List α) (y d : α) :
    (l ++ [y]).getLastD d = y := by
  induction l generalizing d with
  | nil => rfl
  | cons a t ih => rw [List.cons_append, List.getLastD_cons, ih]

/-- Extending a partition of `[lo, hi]` on the left with an adjacent nonempty
segment. -/
theorem partFrom_cons (a : Segment) (segs : List Segment) (lo hi : Nat)
    (h : PartFrom lo hi segs) (hadj : a.endRecordIndex + 1 = lo)
    (hbound : a.startRecordIndex ≤ a.endRecordIndex) :
    PartFrom a.startRecordIndex hi (a :: segs) := by
  obtain ⟨hne, hhead, hlast, hchain, hverif⟩ := h
  obtain ⟨s0, srest, rfl⟩ := List.exists_cons_of_ne_nil hne
  simp only [List.headD_cons] at hhead
  refine ⟨by simp, by simp, ?_, ?_, ?_⟩
  · rw [getLastD_cons_cons]
    exact hlast
  · exact ⟨by rw [segAdj, hadj, hhead], hchain⟩
  · intro x hx
    rcases List.mem_cons.mp hx with rfl | hmem
    · exact hbound
    · exact hverif x hmem

/-- The loop of `buildSegmentsFromCuts` produces a partition from the head
boundary to the last boundary whenever the boundary list is strictly
ascending. -/
theorem segsFromBoundaries_partFrom (records : List Record)
    (old : List Segment) :
    ∀ (rest : List Nat) (b0 b1 i : Nat), natChainLt (b0 :: b1 :: rest) →
      PartFrom b0 ((b0 :: b1 :: rest).getLastD 0)
        (segsFromBoundaries records old (b0 :: b1 :: rest) i) := by
  intro rest
  induction rest with
  | nil =>
    intro b0 b1 i hasc
    have hlt : b0 < b1 := hasc.1
    refine ⟨by simp [segsFromBoundaries], ?_, ?_, ?_, ?_⟩
    · simp [segsFromBoundaries]
    · simp [segsFromBoundaries, List.getLastD_cons]
    · simp [segsFromBoundaries, segsChain]
    · intro s hs
      simp only [segsFromBoundaries, List.mem_singleton] at hs
      subst hs
      simpa using hlt.le
  | cons b2 rest2 ih =>
    intro b0 b1 i hasc
    have hasc2 : natChainLt (b1 :: b2 :: rest2) := hasc.2
    have hlt : b0 < b1 := hasc.1
    have hIH := ih b1 b2 (i + 1) hasc2
    rw [getLastD_cons_cons]
    refine partFrom_cons
      { startRecordIndex := b0, endRecordIndex := b1 - 1,
        sport := if old.length > 0 ∧ i < old.length then (old.getD i default).sport
          else guessSport (computeAvgSpeed (sliceIncl records b0 (b1 - 1))) }
      (segsFromBoundaries records old (b1 :: b2 :: rest2) (i + 1))
      b1 ((b1 :: b2 :: rest2).getLastD 0) hIH ?_ ?_
    · show b1 - 1 + 1 = b1
      omega
    · show b0 ≤ b1 - 1
      omega

/-- Appending the right boundary `n - 1` keeps a cut list strictly
ascending. -/
theorem natChainLt_append_last :
    ∀ (cs : List Nat) (c m : Nat), natChainLt (c :: cs) →
      (∀ x ∈ c :: cs, x < m) → natChainLt (c :: cs ++ [m]) := by
  intro cs
  induction cs with
  | nil =>
    intro c m _ hb
    exact ⟨hb c (by simp), trivial⟩
  | cons d cs2 ih =>
    intro c m hasc hb
    exact ⟨hasc.1, ih d m hasc.2 (fun x hx => hb x (by simp [List.mem_cons.mp hx]))⟩

theorem natChainLt_boundaries (cuts : List Nat) (n : Nat) (hn : 2 ≤ n)
    (hasc : natChainLt cuts) (hb : ∀ c ∈ cuts, 0 < c ∧ c < n - 1) :
    natChainLt (0 :: cuts ++ [n - 1]) := by
  cases cuts with
  | nil => exact ⟨by omega, trivial⟩
  | cons c cs =>
    refine ⟨(hb c (by simp)).1, ?_⟩
    exact natChainLt_append_last cs c (n - 1) hasc (fun x hx => (hb x hx).2)

/-- `buildSegmentsFromCuts` yields a valid partition of `[0, N-1]` for every
strictly ascending cut list inside `(0, N-1)`. -/
theorem buildSegments_valid (records : List Record) (old : List Segment)
    (cuts : List Nat) (hN : 2 ≤ records.length) (hasc : natChainLt cuts)
    (hb : ∀ c ∈ cuts, 0 < c ∧ c < records.length - 1) :
    ValidPartition (buildSegmentsFromCuts records old cuts) records.length := by
  have hchain := natChainLt_boundaries cuts records.length hN hasc hb
  unfold ValidPartition buildSegmentsFromCuts
  cases cuts with
  | nil =>
    have := segsFromBoundaries_partFrom records old [] 0 (records.length - 1) 0 hchain
    simpa using this
  | cons c cs =>
    have := segsFromBoundaries_partFrom records old (cs ++ [records.length - 1])
      0 c 0 hchain
    rw [getLastD_cons_cons] at this
    rw [List.getLastD_cons, getLastD_append_singleton] at this
    simpa using this

/-! ### removeSegmentCut recursion equations -/

theorem removeCut_zero (a b : Segment) (rest : List Segment) :
    removeSegmentCut (a :: b :: rest) 0 =
      { b with startRecordIndex := a.startRecordIndex } :: rest := by
  unfold removeSegmentCut
  rw [if_neg (by simp), if_pos (by simp)]
  simp [List.set, List.eraseIdx]

theorem removeCut_pair_last (a b : Segment) :
    removeSegmentCut [a, b] 1 =
      [{ a with endRecordIndex := b.endRecordIndex }] := by
  unfold removeSegmentCut
  rw [if_neg (by simp), if_neg (by simp)]
  simp [List.set, List.eraseIdx]

theorem removeCut_cons (a : Segment) (t : List Segment) (idx : Nat)
    (ht : 2 ≤ t.length) (hidx : idx < t.length) :
    removeSegmentCut (a :: t) (idx + 1) = a :: removeSegmentCut t idx := by
  obtain ⟨b, t2, rfl⟩ := List.exists_cons_of_ne_nil
    (List.ne_nil_of_length_pos (by omega) : t ≠ [])
  have ht2 : 1 ≤ t2.length := by simp at ht; omega
  have hidx2 : idx ≤ t2.length := by simp at hidx; omega
  unfold removeSegmentCut
  by_cases h : idx < t2.length
  · rw [if_neg (by simp only [List.length_cons]; omega),
      if_pos (by simp only [List.length_cons]; omega),
      if_neg (by simp only [List.length_cons]; omega),
      if_pos (by simp only [List.length_cons]; omega)]
    simp only [List.getD_cons_succ, List.set_cons_succ, List.eraseIdx_cons_succ]
  · have heq : idx = t2.length := by omega
    obtain ⟨m, rfl⟩ : ∃ m, idx = m + 1 := ⟨idx - 1, by omega⟩
    rw [if_neg (by simp only [List.length_cons]; omega),
      if_neg (by simp only [List.length_cons]; omega),
      if_neg (by simp only [List.length_cons]; omega),
      if_neg (by simp only [List.length_cons]; omega)]
    simp only [Nat.add_sub_cancel, List.getD_cons_succ, List.set_cons_succ,
      List.eraseIdx_cons_succ]

/-- `removeSegmentCut` preserves the partition invariant on lists of two or
more segments. -/
theorem removeCut_partFrom :
    ∀ (segs : List Segment) (idx lo hi : Nat), PartFrom lo hi segs →
      2 ≤ segs.length → idx < segs.length →
      PartFrom lo hi (removeSegmentCut segs idx) := by
  intro segs
  induction segs with
  | nil => intro idx lo hi h; exact absurd rfl h.1
  | cons a t ih =>
    intro idx lo hi h hlen hidx
    obtain ⟨-, hhead, hlast, hchain, hverif⟩ := h
    obtain ⟨b, t2, rfl⟩ := List.exists_cons_of_ne_nil
      (List.ne_nil_of_length_pos (by simp at hlen ⊢; omega) : t ≠ [])
    simp only [List.headD_cons] at hhead
    have hchain2 : segAdj a b ∧ segsChain (b :: t2) := hchain
    cases idx with
    | zero =>
      rw [removeCut_zero]
      have hend : a.startRecordIndex ≤ b.endRecordIndex := by
        have h1 := hverif a (by simp)
        have h2 := hverif b (by simp)
        have := hchain2.1
        unfold segAdj at this
        omega
      cases t2 with
      | nil =>
        refine ⟨by simp, by simpa using hhead, ?_, trivial, ?_⟩
        · simpa using (by simpa [getLastD_cons_cons] using hlast :
            ([b].getLastD default).endRecordIndex = hi)
        · intro x hx
          rcases List.mem_singleton.mp hx with rfl
          simpa using hend
      | cons c t3 =>
        have hchain3 : segAdj b c ∧ segsChain (c :: t3) := hchain2.2
        refine ⟨by simp, by simpa using hhead, ?_, ⟨hchain3.1, hchain3.2⟩, ?_⟩
        · rw [getLastD_cons_cons]
          rw [getLastD_cons_cons, getLastD_cons_cons] at hlast
          exact hlast
        · intro x hx
          rcases List.mem_cons.mp hx with rfl | hmem
          · simpa using hend
          · exact hverif x (by simp [hmem])
    | succ k =>
      cases t2 with
      | nil =>
        have hk : k = 0 := by simp at hidx; omega
        subst hk
        rw [removeCut_pair_last]
        have hend : a.startRecordIndex ≤ b.endRecordIndex := by
          have h1 := hverif a (by simp)
          have h2 := hverif b (by simp)
          have := hchain2.1
          unfold segAdj at this
          omega
        refine ⟨by simp, by simpa using hhead, ?_, trivial, ?_⟩
        · simpa using (by simpa [getLastD_cons_cons] using hlast :
            ([b].getLastD default).endRecordIndex = hi)
        · intro x hx
          rcases List.mem_singleton.mp hx with rfl
          simpa using hend
      | cons c t3 =>
        rw [removeCut_cons a (b :: c :: t3) k (by simp) (by simp at hidx ⊢; omega)]
        have hpart2 : PartFrom b.startRecordIndex hi (b :: c :: t3) := by
          refine ⟨by simp, by simp, ?_, hchain2.2, fun x hx => hverif x (by simp [hx])⟩
          rw [getLastD_cons_cons, getLastD_cons_cons] at hlast
          rw [getLastD_cons_cons]
          exact hlast
        have hrec := ih k b.startRecordIndex hi hpart2 (by simp)
          (by simp at hidx ⊢; omega)
        have := partFrom_cons a _ _ _ hrec
          (by exact hchain2.1) (hverif a (by simp))
        rw [hhead] at this
        exact this

/-! ### Cut/merge inverse (claim C8) -/

theorem eraseIdx_append_middle (u : List α) (x : α) (v : List α) :
    (u ++ x :: v).eraseIdx u.length = u ++ v := by
  induction u with
  | nil => rfl
  | cons a u2 ih => simp only [List.cons_append, List.length_cons,
      List.eraseIdx_cons_succ, ih]

theorem boundaries_segsFromBoundaries (records : List Record)
    (old : List Segment) :
    ∀ (bs : List Nat) (i : Nat),
      boundaries (segsFromBoundaries records old bs i) = boundPairs bs := by
  intro bs
  induction bs with
  | nil => intro i; rfl
  | cons b0 rest ih =>
    intro i
    cases rest with
    | nil => rfl
    | cons b1 rest2 =>
      simp only [segsFromBoundaries, boundPairs, boundaries, List.map_cons,
        List.cons.injEq]
      simpa using ih (i + 1)

theorem length_segsFromBoundaries (records : List Record) (old : List Segment) :
    ∀ (bs : List Nat) (i : Nat),
      (segsFromBoundaries records old bs i).length = bs.length - 1 := by
  intro bs
  induction bs with
  | nil => intro i; rfl
  | cons b0 rest ih =>
    intro i
    cases rest with
    | nil => rfl
    | cons b1 rest2 =>
      simp only [segsFromBoundaries, List.length_cons, ih (i + 1)]
      omega

/-- One step of the `buildSegmentsFromCuts` loop, as an equation. -/
theorem segsFromBoundaries_cons (records : List Record) (old : List Segment)
    (b0 b1 : Nat) (rest : List Nat) (i : Nat) :
    segsFromBoundaries records old (b0 :: b1 :: rest) i =
      { startRecordIndex := b0,
        endRecordIndex := if rest = [] then b1 else b1 - 1,
        sport :=
          if old.length > 0 ∧ i < old.length then (old.getD i default).sport
          else guessSport (computeAvgSpeed (sliceIncl records b0
            (if rest = [] then b1 else b1 - 1))) } ::
      segsFromBoundaries records old (b1 :: rest) (i + 1) := rfl

/-- The same step when the boundary is not the last one. -/
theorem segsFromBoundaries_cons_cons (records : List Record)
    (old : List Segment) (b0 b1 b2 : Nat) (rest2 : List Nat) (i : Nat) :
    segsFromBoundaries records old (b0 :: b1 :: b2 :: rest2) i =
      { startRecordIndex := b0, endRecordIndex := b1 - 1,
        sport :=
          if old.length > 0 ∧ i < old.length then (old.getD i default).sport
          else guessSport (computeAvgSpeed (sliceIncl records b0 (b1 - 1))) } ::
      segsFromBoundaries records old (b1 :: b2 :: rest2) (i + 1) := rfl

/-- Removing the cut at boundary position `k + 1` of the built segment list
erases exactly that boundary. -/
theorem removeCut_boundaries (records : List Record) (old : List Segment) :
    ∀ (k : Nat) (bs : List Nat) (i : Nat), k + 2 ≤ bs.length - 1 →
      boundaries (removeSegmentCut (segsFromBoundaries records old bs i) k) =
        boundPairs (bs.eraseIdx (k + 1)) := by
  intro k
  induction k with
  | zero =>
    intro bs i hk
    match bs, hk with
    | b0 :: b1 :: b2 :: rest2, hk2 =>
      rw [segsFromBoundaries_cons_cons, segsFromBoundaries_cons, removeCut_zero]
      simp only [List.eraseIdx_cons_succ, List.eraseIdx_cons_zero, boundPairs,
        boundaries, List.map_cons, List.cons.injEq]
      have h := boundaries_segsFromBoundaries records old (b2 :: rest2) (i + 1 + 1)
      simp only [boundaries] at h
      exact ⟨trivial, h⟩
  | succ k ih =>
    intro bs i hk
    match bs, hk with
    | b0 :: b1 :: b2 :: rest2, hk2 =>
      have hk3 : k + 1 ≤ rest2.length := by simp at hk2; omega
      rw [segsFromBoundaries_cons_cons]
      rw [removeCut_cons _ _ k
        (by rw [length_segsFromBoundaries]; simp; omega)
        (by rw [length_segsFromBoundaries]; simp; omega)]
      rw [List.eraseIdx_cons_succ]
      have hih := ih (b1 :: b2 :: rest2) (i + 1) (by simp; omega)
      have hY : (b1 :: b2 :: rest2).eraseIdx (k + 1) =
          b1 :: (b2 :: rest2).eraseIdx k := List.eraseIdx_cons_succ ..
      have hYne : (b2 :: rest2).eraseIdx k ≠ [] := by
        intro hnil
        have hl := congrArg List.length hnil
        rw [List.length_eraseIdx, if_pos (by simp; omega)] at hl
        simp at hl
        subst hl
        simp at hk3
      obtain ⟨y0, yr, hy⟩ := List.exists_cons_of_ne_nil hYne
      rw [hY, hy] at hih ⊢
      simp only [boundaries, List.map_cons, boundPairs, List.cons.injEq]
      simp only [boundaries] at hih
      exact ⟨by simp, hih⟩

/-- C8: inserting a cut at an admissible index `c` via `rebuildFromCuts` and
then removing (via `removeCut`) the segment whose merge deletes the boundary
at `c` restores the original SegmentList's boundaries.  The cut list of the
original S is `cs1 ++ cs2`, `c` is inserted in order between them, and the
boundary at `c` is the start of segment `cs1.length + 1`, deleted by merging
segment `cs1.length` into it. -/
theorem cut_then_remove_restores_boundaries (records : List Record)
    (old old2 : List Segment) (cs1 cs2 : List Nat) (c : Nat)
    (hN : 2 ≤ records.length)
    (hasc : natChainLt (cs1 ++ c :: cs2))
    (hb : ∀ x ∈ cs1 ++ c :: cs2, 0 < x ∧ x < records.length - 1) :
    boundaries (removeSegmentCut
        (buildSegmentsFromCuts records old2 (cs1 ++ c :: cs2)) cs1.length) =
      boundaries (buildSegmentsFromCuts records old (cs1 ++ cs2)) := by
  unfold buildSegmentsFromCuts
  rw [boundaries_segsFromBoundaries]
  have hshape : (0 :: (cs1 ++ c :: cs2) ++ [records.length - 1]) =
      (0 :: cs1) ++ c :: (cs2 ++ [records.length - 1]) := by
    simp
  have herase : (0 :: (cs1 ++ c :: cs2) ++ [records.length - 1]).eraseIdx
      (cs1.length + 1) = 0 :: (cs1 ++ cs2) ++ [records.length - 1] := by
    rw [hshape]
    have : cs1.length + 1 = (0 :: cs1).length := by simp
    rw [this, eraseIdx_append_middle]
    simp
  rw [removeCut_boundaries records old2 cs1.length _ 0 (by simp), herase]

/-- C8 witness: on six samples with original cut list `[4]`, inserting a cut
at 2 and removing it restores the boundaries. -/
theorem cut_then_remove_restores_boundaries_witness :
    2 ≤ sixRecords.length ∧ natChainLt ([] ++ 2 :: [4]) ∧
    (∀ x ∈ (([] ++ 2 :: [4]) : List Nat), 0 < x ∧ x < sixRecords.length - 1) ∧
    boundaries (removeSegmentCut
        (buildSegmentsFromCuts sixRecords [] ([] ++ 2 :: [4]))
        ([] : List Nat).length) =
      boundaries (buildSegmentsFromCuts sixRecords [] ([] ++ [4])) :=
  ⟨by decide, by decide, by decide,
   cut_then_remove_restores_boundaries sixRecords ([] : List Segment)
     ([] : List Segment) ([] : List Nat) [4] 2 (by decide) (by decide)
     (by decide)⟩

/-- C2: every planner operation yields a SegmentList satisfying the
partition invariant — `rebuildFromCuts` on any strictly ascending cut list
inside `(0, N-1)` (for N ≥ 2), `removeCut` at a valid index on a list of at
least two segments, and `reset` on a nonempty activity. -/
theorem planner_partition_invariant :
    (∀ (records : List Record) (old : List Segment) (cuts : List Nat),
      2 ≤ records.length → natChainLt cuts →
      (∀ c ∈ cuts, 0 < c ∧ c < records.length - 1) →
      ValidPartition (buildSegmentsFromCuts records old cuts) records.length) ∧
    (∀ (segs : List Segment) (idx n : Nat),
      ValidPartition segs n → 2 ≤ segs.length → idx < segs.length →
      ValidPartition (removeSegmentCut segs idx) n) ∧
    (∀ (records : List Record) (sp : Option Sport), records ≠ [] →
      ValidPartition (resetSegments records sp) records.length) := by
  refine ⟨buildSegments_valid, ?_, ?_⟩
  · intro segs idx n hv hlen hidx
    exact removeCut_partFrom segs idx 0 (n - 1) hv hlen hidx
  · intro records sp hne
    exact ⟨by simp [resetSegments], by simp [resetSegments],
      by simp [resetSegments], trivial, by simp [resetSegments]⟩

/-- C2 witness: the three planner operations on concrete inputs. -/
theorem planner_partition_invariant_witness :
    (2 ≤ sixRecords.length ∧ natChainLt [3] ∧
      (∀ c ∈ [3], 0 < c ∧ c < sixRecords.length - 1) ∧
      ValidPartition (buildSegmentsFromCuts sixRecords [] [3])
        sixRecords.length) ∧
    (ValidPartition twoSingletonSegs 2 ∧ 2 ≤ twoSingletonSegs.length ∧
      0 < twoSingletonSegs.length ∧
      ValidPartition (removeSegmentCut twoSingletonSegs 0) 2) ∧
    (sixRecords ≠ [] ∧
      ValidPartition (resetSegments sixRecords none) sixRecords.length) :=
  ⟨⟨by decide, by decide, by decide,
    planner_partition_invariant.1 sixRecords [] [3] (by decide) (by decide)
      (by decide)⟩,
   ⟨by decide, by decide, by decide,
    planner_partition_invariant.2.1 twoSingletonSegs 0 2 (by decide) (by decide)
      (by decide)⟩,
   ⟨by decide,
    planner_partition_invariant.2.2 sixRecords none (by decide)⟩⟩

/-! ## Claim C3 — boundary-zone cuts -/

/-- C3, counterexample: `buildSegmentsFromCuts` called with a cut at index 2
on N = 1000 does not fail — it produces the two-segment list
`[0,1], [2,999]`, so no `InvalidCutError` is raised and a SegmentList is
produced, contrary to the claim. -/
theorem cut_at_2_produces_segments :
    buildSegmentsFromCuts scenarioARecords [] [2] =
      [⟨0, 1, .cycling⟩, ⟨2, 999, .cycling⟩] ∧
    buildSegmentsFromCuts scenarioARecords [] [2] ≠ [] :=
  ⟨scenarioA_cut2, by rw [scenarioA_cut2]; simp⟩

/-- C3, amended: `buildSegmentsFromCuts` performs no boundary-zone
validation — for N = 1000 a cut at index 2 yields the SegmentList
`[0,1], [2,999]` with no error.  The 5-sample boundary zone is enforced only
by the chart click handler, which silently ignores a click at record index 2
(no error value exists in the code). -/
theorem no_boundary_guard_in_rebuild :
    cutClickAllowed 2 1000 = false ∧
    buildSegmentsFromCuts scenarioARecords [] [2] =
      [⟨0, 1, .cycling⟩, ⟨2, 999, .cycling⟩] :=
  ⟨by decide, scenarioA_cut2⟩

/-! ## Claim C5 — scenario A disciplines -/

/-- C5, counterexample: on N = 1000 uniform samples at 10 m/s,
`rebuildFromCuts` with `cutIndices = [500]` does yield segments `[0,499]`
and `[500,999]`, but both guessed disciplines are `cycling`
(mean speed 36 km/h > 20), not `running` as claimed. -/
theorem scenarioA_guesses_cycling :
    buildSegmentsFromCuts scenarioARecords [] [500] =
      [⟨0, 499, .cycling⟩, ⟨500, 999, .cycling⟩] ∧
    Sport.cycling ≠ Sport.running :=
  ⟨scenarioA_cut500, by decide⟩

/-- C5, amended: for N = 1000 uniform 1 Hz samples at constant 10 m/s and no
previous segments, `rebuildFromCuts` with `cutIndices = [500]` yields exactly
the two segments `[0,499]` and `[500,999]`, and both guessed disciplines are
`cycling` under the stated mapping (mean speed 36 km/h > 20 km/h). -/
theorem scenarioA_segments_and_cycling :
    buildSegmentsFromCuts scenarioARecords [] [500] =
      [⟨0, 499, .cycling⟩, ⟨500, 999, .cycling⟩] := scenarioA_cut500

/-! ## Claim C9 — removeCut on a single segment -/

/-- C9, counterexample: `removeCut` invoked on a single-segment list returns
normally with the input list as its value — it does not fail with any error
(no `CannotRemoveLastSegmentError` exists in the code; the guard is
`if (currentSegments.length <= 1) return;`). -/
theorem removeCut_singleton_returns_value :
    removeSegmentCut [⟨0, 9, .running⟩] 0 = [⟨0, 9, .running⟩] := by decide

/-- C9, amended: `removeCut` invoked on a SegmentList containing exactly one
segment is a silent no-op — it returns the input unchanged and raises no
error. -/
theorem removeCut_singleton_noop (segments : List Segment) (segIdx : Nat)
    (h : segments.length = 1) : removeSegmentCut segments segIdx = segments := by
  unfold removeSegmentCut
  rw [if_pos (by omega)]

/-- C9 witness: `removeCut` at index 3 on a concrete singleton list. -/
theorem removeCut_singleton_noop_witness :
    ([⟨5, 17, .cycling⟩] : List Segment).length = 1 ∧
    removeSegmentCut [⟨5, 17, .cycling⟩] 3 = [⟨5, 17, .cycling⟩] :=
  ⟨rfl, removeCut_singleton_noop [⟨5, 17, .cycling⟩] 3 rfl⟩

/-! ## Claim C6 — lap/session total distance -/

/-- C6, counterexample: reconstructing a segment whose first sample has an
undefined distance and whose last has distance 100 emits 100 (the undefined
endpoint coalesces to 0), not 0 as the claim requires when an endpoint
distance is undefined. -/
theorem lap_distance_undefined_endpoint_nonzero :
    lapTotalDistances
        (encodeFitFile ⟨undefFirstDistRecords, ([] : List (RawMessage Nat))⟩
          [⟨0, 1, .running⟩] 0) = [100] ∧
    sessionTotalDistances
        (encodeFitFile ⟨undefFirstDistRecords, ([] : List (RawMessage Nat))⟩
          [⟨0, 1, .running⟩] 0) = [100] ∧
    (100 : ℚ) ≠ 0 := by
  refine ⟨?_, ?_, by norm_num⟩ <;> with_unfolding_all decide

/-- C6, amended: the lap/session total distance equals
`max 0 ((last.distance ?? 0) - (first.distance ?? 0))` — an undefined
endpoint distance is coalesced to 0 before the clamped subtraction (so it is
0 only when the defined endpoint does not make the difference positive), and
when both endpoints are defined it is the clamped difference as claimed. -/
theorem total_distance_coalesces_undefined (l : List Record) (hne : l ≠ []) :
    (computeSegmentStats l).totalDistance =
      max 0 ((l.getLastD default).distance.getD 0 -
        (l.headD default).distance.getD 0) := by
  have hlen : ¬(l.length = 0) := fun h0 => hne (List.length_eq_zero.mp h0)
  unfold computeSegmentStats
  rw [if_neg hlen]
  simp only
  rcases lt_or_le 0 ((l.getLastD default).distance.getD 0 -
      (l.headD default).distance.getD 0) with h | h
  · rw [if_pos h, max_eq_right h.le]
  · rw [if_neg (not_lt.mpr h), max_eq_left (neg_nonneg.mp (by simpa using h))]

/-- C6 witness: a concrete one-sample slice with a defined distance. -/
theorem total_distance_coalesces_undefined_witness :
    ([(⟨0, none, none, some 5, none, none, none, none, none⟩ : Record)] ≠
        ([] : List Record)) ∧
    (computeSegmentStats
        [(⟨0, none, none, some 5, none, none, none, none, none⟩ : Record)]).totalDistance =
      max 0
        ((([(⟨0, none, none, some 5, none, none, none, none, none⟩ : Record)].getLastD
            default).distance.getD 0) -
          (([(⟨0, none, none, some 5, none, none, none, none, none⟩ : Record)].headD
            default).distance.getD 0)) :=
  ⟨by simp, total_distance_coalesces_undefined _ (by simp)⟩

/-! ## Claim C7 — detector determinism, separation and bounds -/

theorem computeSpeedProfile_length (records : List Record) :
    (computeSpeedProfile records).length = records.length := by
  simp only [computeSpeedProfile, List.length_map, List.length_range]

theorem pickPeaks_length (minGap numSplits : Nat) :
    ∀ (cands : List (Nat × ℚ)) (peaks : List Nat), peaks.length ≤ numSplits →
      (pickPeaks minGap numSplits cands peaks).length ≤ numSplits := by
  intro cands
  induction cands with
  | nil => intro peaks h; simpa [pickPeaks] using h
  | cons c rest ih =>
    intro peaks h
    rw [pickPeaks]
    by_cases h1 : peaks.length ≥ numSplits
    · rw [if_pos h1]; exact h
    · rw [if_neg h1]
      by_cases h2 : peaks.any (fun p => natDist p c.1 < minGap)
      · rw [if_pos h2]; exact ih peaks h
      · rw [if_neg h2]
        exact ih _ (by simp only [List.length_append, List.length_cons,
          List.length_nil]; omega)

theorem pickPeaks_pairwise (minGap numSplits : Nat) :
    ∀ (cands : List (Nat × ℚ)) (peaks : List Nat),
      peaks.Pairwise (fun a b => minGap ≤ natDist a b) →
      (pickPeaks minGap numSplits cands peaks).Pairwise
        (fun a b => minGap ≤ natDist a b) := by
  intro cands
  induction cands with
  | nil => intro peaks h; simpa [pickPeaks] using h
  | cons c rest ih =>
    intro peaks h
    rw [pickPeaks]
    by_cases h1 : peaks.length ≥ numSplits
    · rw [if_pos h1]; exact h
    · rw [if_neg h1]
      by_cases h2 : peaks.any (fun p => natDist p c.1 < minGap)
      · rw [if_pos h2]; exact ih peaks h
      · rw [if_neg h2]
        refine ih _ (List.pairwise_append.mpr ⟨h, List.pairwise_singleton _ _, ?_⟩)
        intro a ha b hb
        rcases List.mem_singleton.mp hb with rfl
        have h3 : ∀ p ∈ peaks, ¬(natDist p c.1 < minGap) := by
          intro p hp hlt
          exact h2 (List.any_eq_true.mpr ⟨p, hp, by simpa using hlt⟩)
        exact Nat.le_of_not_lt (h3 a ha)

theorem pickPeaks_mem (minGap numSplits : Nat) (P : Nat → Prop) :
    ∀ (cands : List (Nat × ℚ)) (peaks : List Nat),
      (∀ c ∈ cands, P c.1) → (∀ x ∈ peaks, P x) →
      ∀ x ∈ pickPeaks minGap numSplits cands peaks, P x := by
  intro cands
  induction cands with
  | nil => intro peaks _ hp x hx; exact hp x (by simpa [pickPeaks] using hx)
  | cons c rest ih =>
    intro peaks hc hp x hx
    rw [pickPeaks] at hx
    by_cases h1 : peaks.length ≥ numSplits
    · rw [if_pos h1] at hx; exact hp x hx
    · rw [if_neg h1] at hx
      by_cases h2 : peaks.any (fun p => natDist p c.1 < minGap)
      · rw [if_pos h2] at hx
        exact ih peaks (fun y hy => hc y (by simp [hy])) hp x hx
      · rw [if_neg h2] at hx
        refine ih _ (fun y hy => hc y (by simp [hy])) ?_ x hx
        intro y hy
        rcases List.mem_append.mp hy with hmem | hmem
        · exact hp y hmem
        · rcases List.mem_singleton.mp hmem with rfl
          exact hc c (by simp)

theorem detectorCandidates_bounds (profile : List ℚ) :
    ∀ c ∈ detectorCandidates profile,
      detectorMinGap profile.length < c.1 ∧
        c.1 < profile.length - detectorMinGap profile.length := by
  intro c hc
  unfold detectorCandidates at hc
  have hc2 := (List.mergeSort_perm _ _).mem_iff.mp hc
  have hc3 := (List.mem_filter.mp hc2).2
  simpa using hc3

theorem natDist_symm (a b : Nat) : natDist a b = natDist b a := by
  unfold natDist
  omega

set_option maxRecDepth 1000000 in
/-- C7, counterexample: on a 100-sample sequence (`minGap = 15`) the detector
returns `[16, 84]`, and `84 = N - 1 - minGap` is NOT strictly inside the open
interval `(minGap, N - 1 - minGap)` — the code's candidate filter allows
indices up to `N - minGap - 1` inclusive. -/
theorem detector_returns_upper_bound_index :
    detectTransitions stepRecords 2 = [16, 84] ∧
    stepRecords.length = 100 ∧
    ¬(84 < stepRecords.length - 1 - 3 * stepRecords.length / 20) := by
  refine ⟨?_, by with_unfolding_all decide, by with_unfolding_all decide⟩
  with_unfolding_all decide

/-- C7, amended: `detectTransitions` is deterministic (a pure function of the
sample sequence and `k`); it returns a strictly ascending list of at most `k`
indices, each inside the interval `(minGap, N - minGap)` — that is, up to and
including `N - 1 - minGap`, one more than the claimed strict bound
`N - 1 - minGap` exclusive — pairwise separated by at least
`minGap = floor(0.15 N)`; and for `N < 100` it returns the empty list. -/
theorem detector_properties (records : List Record) (k : Nat) :
    (records.length < 100 → detectTransitions records k = []) ∧
    (detectTransitions records k).length ≤ k ∧
    List.Sorted (· < ·) (detectTransitions records k) ∧
    (detectTransitions records k).Pairwise
      (fun a b => detectorMinGap records.length ≤ natDist a b) ∧
    (∀ x ∈ detectTransitions records k,
      detectorMinGap records.length < x ∧
        x < records.length - detectorMinGap records.length) := by
  have hp := computeSpeedProfile_length records
  by_cases h : records.length < 100
  · have hnil : detectTransitions records k = [] := by
      unfold detectTransitions findSpeedTransitions
      rw [if_pos (by rw [hp]; exact h)]
    rw [hnil]
    exact ⟨fun _ => rfl, by simp, List.sorted_nil, List.Pairwise.nil, by simp⟩
  · have hEq : detectTransitions records k =
        (pickPeaks (detectorMinGap (computeSpeedProfile records).length) k
          (detectorCandidates (computeSpeedProfile records)) []).mergeSort
          (fun a b => decide (a ≤ b)) := by
      unfold detectTransitions findSpeedTransitions
      rw [if_neg (by rw [hp]; exact h)]
    rw [hp] at hEq
    have hperm := List.mergeSort_perm
      (pickPeaks (detectorMinGap records.length) k
        (detectorCandidates (computeSpeedProfile records)) [])
      (fun a b => decide (a ≤ b))
    have hgap : (detectTransitions records k).Pairwise
        (fun a b => detectorMinGap records.length ≤ natDist a b) := by
      rw [hEq]
      refine ((hperm.pairwise_iff ?_).mpr
        (pickPeaks_pairwise _ _ _ _ List.Pairwise.nil))
      intro x y hxy
      rwa [natDist_symm]
    have hmem : ∀ x ∈ detectTransitions records k,
        detectorMinGap records.length < x ∧
          x < records.length - detectorMinGap records.length := by
      intro x hx
      rw [hEq] at hx
      refine pickPeaks_mem _ _
        (fun y => detectorMinGap records.length < y ∧
          y < records.length - detectorMinGap records.length)
        _ _ ?_ (by simp) x (hperm.mem_iff.mp hx)
      intro c hc
      have := detectorCandidates_bounds (computeSpeedProfile records) c hc
      rwa [hp] at this
    refine ⟨fun h100 => absurd h100 h, ?_, ?_, hgap, hmem⟩
    · rw [hEq, hperm.length_eq]
      exact pickPeaks_length _ _ _ _ (by simp)
    · have hle : (detectTransitions records k).Pairwise (fun a b => a ≤ b) := by
        rw [hEq]
        refine (List.sorted_mergeSort ?_ ?_ _).imp ?_
        · intro a b c h1 h2
          simp only [decide_eq_true_eq] at h1 h2 ⊢
          omega
        · intro a b
          simp only [Bool.or_eq_true, decide_eq_true_eq]
          omega
        · intro a b hab
          simpa using hab
      have hmg : 1 ≤ detectorMinGap records.length := by
        unfold detectorMinGap
        omega
      exact (hle.and hgap).imp (by
        intro a b hab
        have := hab.2
        unfold natDist at this
        omega)

/-- C7 witness: the `N < 100` branch of the detector on the empty sample
sequence. -/
theorem detector_properties_witness :
    ([] : List Record).length < 100 ∧ detectTransitions ([] : List Record) 2 = [] :=
  ⟨by decide, (detector_properties ([] : List Record) 2).1 (by decide)⟩

/-! ## Claim C1 — record coverage of the reconstruction -/

theorem grrGo_eq (s e : Nat) :
    ∀ (msgs : List (RawMessage α)) (k : Nat),
      grrGo s e msgs k =
        ((recordMesgs msgs).drop (s - k)).take (e + 1 - max s k) := by
  intro msgs
  induction msgs with
  | nil => intro k; simp [grrGo, recordMesgs]
  | cons m rest ih =>
    intro k
    simp only [grrGo]
    by_cases hrec : m.mesgNum = RECORD_NUM
    · rw [if_pos hrec]
      have hF : recordMesgs (m :: rest) = m :: recordMesgs rest := by
        simp [recordMesgs, hrec]
      rw [hF]
      by_cases hbreak : k + 1 > e
      · rw [if_pos hbreak]
        by_cases hke : s ≤ k ∧ k ≤ e
        · rw [if_pos hke]
          have h1 : s - k = 0 := by omega
          have h2 : e + 1 - max s k = 1 := by omega
          rw [h1, h2]
          simp
        · rw [if_neg hke]
          have h2 : e + 1 - max s k = 0 := by omega
          rw [h2]
          simp
      · rw [if_neg hbreak]
        rw [ih (k + 1)]
        by_cases hs : s ≤ k
        · rw [if_pos ⟨hs, by omega⟩]
          have h1 : s - k = 0 := by omega
          have h2 : s - (k + 1) = 0 := by omega
          have h3 : max s k = k := by omega
          have h4 : max s (k + 1) = k + 1 := by omega
          have h5 : e + 1 - k = (e + 1 - (k + 1)) + 1 := by omega
          rw [h1, h2, h3, h4, h5]
          simp [List.take_succ_cons]
        · rw [if_neg (by omega : ¬(s ≤ k ∧ k ≤ e))]
          have h1 : s - k = (s - (k + 1)) + 1 := by omega
          have h3 : max s k = s := by omega
          have h4 : max s (k + 1) = s := by omega
          rw [h1, h3, h4]
          simp [List.drop_succ_cons]
    · rw [if_neg hrec]
      have hF : recordMesgs (m :: rest) = recordMesgs rest := by
        simp [recordMesgs, hrec]
      rw [hF, ih k]

/-- `getRawRecordsInRange` is exactly the positional slice `[s, e]` of the
record subsequence. -/
theorem getRawRecordsInRange_eq_slice (msgs : List (RawMessage α)) (s e : Nat) :
    getRawRecordsInRange msgs s e = sliceIncl (recordMesgs msgs) s e := by
  unfold getRawRecordsInRange sliceIncl
  rw [grrGo_eq]
  simp

/-- The slices of a partition of `[lo, hi]` concatenate to the underlying
range of any list. -/
theorem slices_flatten (F : List β) :
    ∀ (segs : List Segment) (lo hi : Nat), PartFrom lo hi segs →
      (segs.map (fun sg =>
        sliceIncl F sg.startRecordIndex sg.endRecordIndex)).flatten =
        (F.drop lo).take (hi + 1 - lo) := by
  intro segs
  induction segs with
  | nil => intro lo hi h; exact absurd rfl h.1
  | cons a t ih =>
    intro lo hi h
    obtain ⟨-, hhead, hlast, hchain, hverif⟩ := h
    simp only [List.headD_cons] at hhead
    cases t with
    | nil =>
      simp only [List.getLastD_cons, List.getLastD_nil] at hlast
      subst hhead hlast
      simp [sliceIncl]
    | cons b t2 =>
      have hchain2 : segAdj a b ∧ segsChain (b :: t2) := hchain
      have hpart2 : PartFrom b.startRecordIndex hi (b :: t2) := by
        refine ⟨by simp, by simp, ?_, hchain2.2,
          fun x hx => hverif x (by simp [hx])⟩
        rw [getLastD_cons_cons] at hlast
        exact hlast
      have hbnds := partFrom_bounds _ _ _ hpart2
      have hIH := ih b.startRecordIndex hi hpart2
      subst hhead
      have hadj := hchain2.1
      unfold segAdj at hadj
      have h1 := hverif a (by simp)
      have hbend : b.startRecordIndex ≤ hi :=
        le_trans (hbnds b (by simp)).1 (hbnds b (by simp)).2
      rw [List.map_cons, List.flatten_cons, hIH]
      unfold sliceIncl
      have hsplit : hi + 1 - a.startRecordIndex =
          (a.endRecordIndex + 1 - a.startRecordIndex) +
            (hi + 1 - b.startRecordIndex) := by omega
      rw [hsplit, List.take_add]
      congr 1
      rw [List.drop_drop]
      congr 2
      omega

theorem outRecordData_append (A B : List (OutMesg α)) :
    outRecordData (A ++ B) = outRecordData A ++ outRecordData B := by
  induction A with
  | nil => rfl
  | cons x rest ih => cases x <;> simp [outRecordData, ih]

theorem outRecordData_record_map (l : List (RawMessage α)) :
    outRecordData (l.map (fun m => OutMesg.record m.data)) =
      l.map (fun m => m.data) := by
  induction l with
  | nil => rfl
  | cons m rest ih => simp [outRecordData, ih]

theorem outRecordData_deviceInfo_map (l : List (RawMessage α)) :
    outRecordData (l.map (fun m => OutMesg.deviceInfo m.data)) = [] := by
  induction l with
  | nil => rfl
  | cons m rest ih => simpa [outRecordData] using ih

/-- The record messages emitted by the per-segment loop are exactly the
per-segment `getRawRecordsInRange` slices, concatenated in segment order
(no segment is skipped when every slice is nonempty). -/
theorem outRecordData_encodeSegments (records : List Record)
    (msgs : List (RawMessage α)) :
    ∀ (segs : List Segment) (segIdx lapIdx : Nat),
      (∀ sg ∈ segs, sg.startRecordIndex ≤ sg.endRecordIndex ∧
        sg.endRecordIndex < records.length) →
      outRecordData (encodeSegments records msgs segs segIdx lapIdx) =
        (segs.map (fun sg => (getRawRecordsInRange msgs sg.startRecordIndex
          sg.endRecordIndex).map (fun m => m.data))).flatten := by
  intro segs
  induction segs with
  | nil => intro segIdx lapIdx _; rfl
  | cons sg rest ih =>
    intro segIdx lapIdx hb
    have h1 := hb sg (by simp)
    have hlen : (sliceIncl records sg.startRecordIndex sg.endRecordIndex).length
        = sg.endRecordIndex + 1 - sg.startRecordIndex := by
      rw [length_sliceIncl]
      omega
    have hne : ¬((sliceIncl records sg.startRecordIndex
        sg.endRecordIndex).length = 0) := by omega
    rw [encodeSegments, if_neg hne]
    rw [outRecordData_append, outRecordData_append]
    rw [ih (segIdx + 1) (lapIdx + 1) (fun x hx => hb x (by simp [hx]))]
    simp [outRecordData, outRecordData_record_map]

/-- C1: record coverage — over any valid SegmentList and an activity whose
record-typed raw message subsequence is in 1:1 correspondence with the
sample sequence, the record-typed messages emitted by `encodeFitFile` across
all segments, in order, are exactly the original record-typed raw message
subsequence: none duplicated, none dropped. -/
theorem reconstruct_record_coverage {α : Type} (parsed : ParsedData α)
    (segs : List Segment) (tz : ℤ)
    (hpart : ValidPartition segs parsed.records.length)
    (hcount : (recordMesgs parsed.rawOrderedMessages).length =
      parsed.records.length)
    (hne : parsed.records ≠ []) :
    outRecordData (encodeFitFile parsed segs tz) =
      (recordMesgs parsed.rawOrderedMessages).map (fun m => m.data) := by
  obtain ⟨records, msgs⟩ := parsed
  simp only at hpart hcount hne ⊢
  have hN : 1 ≤ records.length := by
    cases records with
    | nil => exact absurd rfl hne
    | cons r rs => simp
  have hbnds := partFrom_bounds segs 0 (records.length - 1) hpart
  have hsegb : ∀ sg ∈ segs, sg.startRecordIndex ≤ sg.endRecordIndex ∧
      sg.endRecordIndex < records.length := by
    intro sg hsg
    refine ⟨(hbnds sg hsg).1, ?_⟩
    have := (hbnds sg hsg).2
    omega
  unfold encodeFitFile
  simp only
  rw [outRecordData_append, outRecordData_append]
  rw [show outRecordData
      (OutMesg.fileId ((msgs.find? (fun m => m.mesgNum = FILE_ID_NUM)).map
        (fun m => m.data)) ::
        (msgs.filter (fun m => m.mesgNum = DEVICE_INFO_NUM)).map
          (fun m => OutMesg.deviceInfo m.data)) = []
    from outRecordData_deviceInfo_map _]
  rw [outRecordData_encodeSegments records msgs segs 0 0 hsegb]
  have hmapeq : segs.map (fun sg => (getRawRecordsInRange msgs
      sg.startRecordIndex sg.endRecordIndex).map (fun m => m.data)) =
      segs.map (fun sg => (sliceIncl (recordMesgs msgs) sg.startRecordIndex
        sg.endRecordIndex).map (fun m => m.data)) := by
    refine List.map_congr_left (fun sg _ => ?_)
    rw [getRawRecordsInRange_eq_slice]
  rw [hmapeq]
  have hflat : (segs.map (fun sg => (sliceIncl (recordMesgs msgs)
      sg.startRecordIndex sg.endRecordIndex).map (fun m => m.data))).flatten =
      ((segs.map (fun sg => sliceIncl (recordMesgs msgs) sg.startRecordIndex
        sg.endRecordIndex)).flatten).map (fun m => m.data) := by
    rw [List.map_flatten, List.map_map]
    rfl
  rw [hflat, slices_flatten (recordMesgs msgs) segs 0 (records.length - 1) hpart]
  have hlast : records.length - 1 + 1 - 0 = (recordMesgs msgs).length := by
    omega
  rw [List.drop_zero, hlast, List.take_length]
  simp [outRecordData]

/-- C1 witness: the two-segment split `[0,1],[2,2]` of the three-record
stream. -/
theorem reconstruct_record_coverage_witness :
    ValidPartition [⟨0, 1, .running⟩, ⟨2, 2, .cycling⟩]
      (ParsedData.records ⟨threeRecords, coverageMsgs⟩).length ∧
    (recordMesgs (ParsedData.rawOrderedMessages
      ⟨threeRecords, coverageMsgs⟩)).length =
      (ParsedData.records ⟨threeRecords, coverageMsgs⟩).length ∧
    (ParsedData.records ⟨threeRecords, coverageMsgs⟩) ≠ [] ∧
    outRecordData (encodeFitFile (⟨threeRecords, coverageMsgs⟩ :
        ParsedData Nat) [⟨0, 1, .running⟩, ⟨2, 2, .cycling⟩] 60) =
      (recordMesgs (ParsedData.rawOrderedMessages
        ⟨threeRecords, coverageMsgs⟩)).map (fun m => m.data) :=
  ⟨by decide, by with_unfolding_all decide, by decide,
   reconstruct_record_coverage (⟨threeRecords, coverageMsgs⟩ : ParsedData Nat)
     [⟨0, 1, .running⟩, ⟨2, 2, .cycling⟩] 60 (by decide)
     (by with_unfolding_all decide) (by decide)⟩
